import Mathlib

/-!
# LightOS kernel core: a shallow embedding and verification

This development embeds the scheduler / memory core of the LightOS kernel
(frame allocator, VMA manager, page-fault resolution, round-robin scheduler,
interrupt entry points) as executable Lean definitions, and proves or refutes
the specified properties about them.

Machine integers (u64 values of physical and virtual addresses, sizes) are
represented as natural numbers; additions that the machine performs on u64
wrap explicitly modulo 2^64.  Operations of the underlying address types that
can abort (constructing an invalid physical address, constructing a
non-canonical virtual address) are modelled as Option-returning functions,
with `none` standing for the abort.
-/

namespace LightOS

/-- One u64 machine word: values live below this modulus. -/
def wordMod : Nat := 2 ^ 64

/-- Size of one physical frame / virtual page: 4 KiB. -/
def frameSize : Nat := 4096

/-- Physical addresses carry at most 52 significant bits; constructing one
with a higher bit set aborts. -/
def physMax : Nat := 2 ^ 52

/-- Align an address down to its 4 KiB frame/page base,
as frame or page containing_address does. -/
def alignDown4K (a : Nat) : Nat := a - a % frameSize

/-- PhysAddr construction: succeeds only when no bit in range 52..64 is set;
otherwise the source aborts. -/
def physAddrNew (a : Nat) : Option Nat :=
  if a < physMax then some a else none

/-! ## Physical frame allocator (src/kernel/memory/frame_alloc.rs) -/

/-- State of the physical memory manager: declared available regions
(pairs of base physical address and byte length, the first region_count
entries of the fixed table) and the sequential allocation cursor. -/
structure PmmState where
  available_regions : List (Nat × Nat)
  next_free_frame : Nat
deriving Repr, DecidableEq

/-- The per-region test of the allocation loop: the candidate frame base is at
or above the region base and the frame end (u64 sum) is at or below the region
end, where the region end is the u64 sum of base and length. -/
def regionAdmits (frame_addr : Nat) (r : Nat × Nat) : Bool :=
  decide (r.1 ≤ frame_addr) &&
  decide ((frame_addr + frameSize) % wordMod ≤ (r.1 + r.2) % wordMod)

/-- allocate_frame: takes the frame containing the cursor, scans the declared
regions in order for one whose extent fully contains that frame, and on a hit
stores frame end as the new cursor (aborting if that is not a representable
physical address) and returns the frame base; if no region admits the frame it
returns nothing and leaves the state unchanged.  The outer Option is the abort
of PhysAddr construction. -/
def allocate_frame (s : PmmState) : Option (Option Nat × PmmState) :=
  let frame_addr := alignDown4K s.next_free_frame
  if s.available_regions.any (regionAdmits frame_addr) then
    match physAddrNew (frame_addr + frameSize) with
    | some na => some (some frame_addr, { s with next_free_frame := na })
    | none => none
  else
    some (none, s)

/-! ## Virtual memory areas (src/kernel/memory/vma.rs) -/

/-- Bits 47..64 of a u64 value. -/
def hiBits47 (a : Nat) : Nat := a / 2 ^ 47

/-- VirtAddr construction on a u64 value: accepted as-is when bits 47..64 are
all zero or all one (the value is canonical); sign-extended into the high half
when exactly bit 47 is set and bits 48..64 are clear; any other bit pattern in
the upper bits makes the source abort. -/
def virtAddrNew (a : Nat) : Option Nat :=
  if hiBits47 a = 0 then some a
  else if hiBits47 a = 0x1ffff then some a
  else if hiBits47 a = 1 then some (a + 0xffff * 2 ^ 48)
  else none

/-- Semantic kind of a virtual memory area. -/
inductive VMA_Type
  | Code
  | Data
  | Stack
  | Heap
  | MappedFile
deriving Repr, DecidableEq

/-- One virtual memory area: start virtual address, byte size, page-table
permission flag bits, and semantic kind. -/
structure VirtualMemoryArea where
  start_addr : Nat
  size : Nat
  flags : Nat
  area_type : VMA_Type
deriving Repr, DecidableEq

/-- Error kinds of the VMA layer. -/
inductive VMA_Error
  | AreaAlreadyExists
  | NoAreaFound
  | OOM
deriving Repr, DecidableEq

/-- The per-task VMA map: an ordered map from start virtual address to area,
represented as its association list sorted strictly by key. -/
structure VMA_Manager where
  areas : List (Nat × VirtualMemoryArea)
deriving Repr, DecidableEq

/-- An empty VMA manager. -/
def VMA_Manager.new : VMA_Manager := ⟨[]⟩

/-- Ordered-map insertion keeping keys strictly sorted. -/
def btreeInsert (k : Nat) (v : VirtualMemoryArea) :
    List (Nat × VirtualMemoryArea) → List (Nat × VirtualMemoryArea)
  | [] => [(k, v)]
  | kv :: rest =>
    if k < kv.1 then (k, v) :: kv :: rest
    else if k = kv.1 then (k, v) :: rest
    else kv :: btreeInsert k v rest

/-- add_area: rejects only an exact start-address collision, then inserts the
area keyed by its start address. -/
def VMA_Manager.add_area (m : VMA_Manager) (area : VirtualMemoryArea) :
    Except VMA_Error VMA_Manager :=
  if m.areas.any (fun kv => kv.1 = area.start_addr) then
    .error .AreaAlreadyExists
  else
    .ok ⟨btreeInsert area.start_addr area m.areas⟩

/-- The ordered-map range query up to and including addr, taking the last
entry: the stored entry with the largest key at most addr. -/
def predecessorEntry (addr : Nat) (l : List (Nat × VirtualMemoryArea)) :
    Option (Nat × VirtualMemoryArea) :=
  (l.filter (fun kv => decide (kv.1 ≤ addr))).getLast?

/-- find_area: predecessor lookup of addr among the stored start addresses,
then the containment test against the end address, which the source computes
by VirtAddr addition of start and size (u64 sum fed to VirtAddr construction,
which can sign-extend or abort).  The outer Option is that abort. -/
def VMA_Manager.find_area (m : VMA_Manager) (addr : Nat) :
    Option (Option VirtualMemoryArea) :=
  match predecessorEntry addr m.areas with
  | some (start_addr, area) =>
    match virtAddrNew ((start_addr + area.size) % wordMod) with
    | some end_addr =>
      some (if start_addr ≤ addr ∧ addr < end_addr then some area else none)
    | none => none
  | none => some none

/-! ## Page-table mapper (src/kernel/memory/paging.rs) -/

/-- Observable effect of the page-table mapper: the ordered log of installed
single-page translations (page base, frame base, flag bits). -/
structure PageTableState where
  mappings : List (Nat × Nat × Nat)
deriving Repr, DecidableEq

/-- Modelled from the spec: the map_page entry of the Page-Table Mapper is
imported by map_vma_page from the paging module but its definition is absent
from the sources under src/; per the spec it installs exactly one
virtual-page to physical-frame translation with the given permission flags
(and invalidates the stale translation).  The model appends that single
translation to the install log. -/
def map_page (pt : PageTableState) (page frame flags : Nat) : PageTableState :=
  ⟨pt.mappings ++ [(page, frame, flags)]⟩

/-- map_vma_page: computes the page containing the faulting address, looks up
the owning VMA (NoAreaFound when none), draws one frame from the frame
allocator singleton (OOM when exhausted), and installs the single-page
mapping with the area's flags.  The frame allocator singleton, whose
declaration is absent from the sources under src/, is passed as the explicit
pmm state; the outer Option propagates aborts of find_area or
allocate_frame. -/
def map_vma_page (m : VMA_Manager) (pmm : PmmState) (pt : PageTableState)
    (fault_addr : Nat) :
    Option (Except VMA_Error Unit × PmmState × PageTableState) :=
  let page := alignDown4K fault_addr
  match m.find_area fault_addr with
  | none => none
  | some none => some (.error .NoAreaFound, pmm, pt)
  | some (some area) =>
    match allocate_frame pmm with
    | none => none
    | some (none, pmm2) => some (.error .OOM, pmm2, pt)
    | some (some frame, pmm2) => some (.ok (), pmm2, map_page pt page frame area.flags)

/-! ## Task context and tasks (src/kernel/task/context.rs, scheduler.rs) -/

/-- The saved register snapshot exchanged by the context switch. -/
structure TaskContext where
  rflags : Nat
  rbx : Nat
  rbp : Nat
  r12 : Nat
  r13 : Nat
  r14 : Nat
  r15 : Nat
  rsp : Nat
deriving Repr, DecidableEq

/-- The all-zero default context. -/
def TaskContext.zero : TaskContext := ⟨0, 0, 0, 0, 0, 0, 0, 0⟩

/-- TaskContext construction for a fresh task: stack pointer at the stack top,
entry point staged in r15, flags with the interrupt-enable bit set. -/
def TaskContext.new (stack_top entry_point_addr : Nat) : TaskContext :=
  { TaskContext.zero with
      rsp := stack_top
      r15 := entry_point_addr
      rflags := 0x202 }

/-- Modelled from the spec: the Task structure is declared in the task module
whose defining file is absent from the sources under src/ (the scheduler only
consumes it); the fields follow its construction site in scheduler.rs and
spec section 3: numeric id, saved context, physical address of the private
top-level page table, owned VMA manager, owned stack buffer. -/
structure Task where
  id : Nat
  context : TaskContext
  cr3_phys_addr : Nat
  vma_manager : VMA_Manager
  stack : List Nat
deriving Repr, DecidableEq

/-! ## Scheduler (src/kernel/task/scheduler.rs) -/

/-- Scheduler state: the FIFO ready queue and the current-task slot. -/
structure Scheduler where
  task_queue : List Task
  current_task : Option Task
deriving Repr, DecidableEq

/-- A fresh scheduler: empty queue, no current task. -/
def Scheduler.new : Scheduler := ⟨[], none⟩

/-- add_task: push the task at the tail of the ready queue. -/
def Scheduler.add_task (s : Scheduler) (task : Task) : Scheduler :=
  ⟨s.task_queue ++ [task], s.current_task⟩

/-- Result of one schedule_next call: the scheduler state, the context left in
the interrupted-context slot, the active page-table root (frame base held in
CR3) after the call, and whether switch_cr3 was invoked. -/
structure SchedOutcome where
  sched : Scheduler
  ctx : TaskContext
  active_cr3 : Nat
  switched : Bool
deriving Repr, DecidableEq

/-- schedule_next: on the first run synthesizes kernel task 0 from the live
context and the active root; preempts the current task by saving the live
context into it and pushing it at the queue tail; pops the queue head as the
next task, invoking switch_cr3 exactly when the active root differs from the
next task's stored root (switch_cr3 loads the frame containing that root);
finally substitutes the next task's saved context for the live one.  With an
empty queue it falls through to idle, leaving everything in place. -/
def Scheduler.schedule_next (s : Scheduler) (current_context : TaskContext)
    (active_cr3 : Nat) : SchedOutcome :=
  let s1 : Scheduler :=
    if s.current_task.isNone then
      let kernel_task : Task :=
        { id := 0
          context := current_context
          cr3_phys_addr := active_cr3
          vma_manager := VMA_Manager.new
          stack := [] }
      { s with current_task := some kernel_task }
    else s
  let s2 : Scheduler :=
    match s1.current_task with
    | some prev => ⟨s1.task_queue ++ [{ prev with context := current_context }], none⟩
    | none => ⟨s1.task_queue, none⟩
  match s2.task_queue with
  | [] => ⟨s2, current_context, active_cr3, false⟩
  | next :: rest =>
    if active_cr3 ≠ next.cr3_phys_addr then
      ⟨⟨rest, some next⟩, next.context, alignDown4K next.cr3_phys_addr, true⟩
    else
      ⟨⟨rest, some next⟩, next.context, active_cr3, false⟩

/-- The machine state a timer tick acts on: scheduler, live context, active
page-table root. -/
structure MachineState where
  sched : Scheduler
  ctx : TaskContext
  active_cr3 : Nat
deriving Repr, DecidableEq

/-- One timer tick: a schedule_next invocation on the live context. -/
def tick (ms : MachineState) : MachineState :=
  let o := ms.sched.schedule_next ms.ctx ms.active_cr3
  ⟨o.sched, o.ctx, o.active_cr3⟩

/-- n consecutive timer ticks. -/
def runTicks : Nat → MachineState → MachineState
  | 0, ms => ms
  | n + 1, ms => runTicks n (tick ms)

/-- The id occupying the current-task slot after each of n consecutive ticks,
in order (none when the slot is empty). -/
def currentIdTrace : Nat → MachineState → List (Option Nat)
  | 0, _ => []
  | n + 1, ms => (tick ms).sched.current_task.map Task.id :: currentIdTrace n (tick ms)

/-- Ids of the tasks held by the scheduler: the current-task slot followed by
the ready queue. -/
def schedTaskIds (s : Scheduler) : List Nat :=
  (s.current_task.map Task.id).toList ++ s.task_queue.map Task.id

/-- Scheduler states reachable from a fresh scheduler by add_task and
schedule_next calls, together with the ids of every task created so far
(spawned tasks and the kernel task 0 that the first tick synthesizes). -/
inductive Reachable : Scheduler → List Nat → Prop
  | init : Reachable Scheduler.new []
  | add (s : Scheduler) (c : List Nat) (t : Task) :
      Reachable s c → Reachable (s.add_task t) (c ++ [t.id])
  | tick (s : Scheduler) (c : List Nat) (ctx : TaskContext) (cr3 : Nat) :
      Reachable s c →
      Reachable (s.schedule_next ctx cr3).sched
        (c ++ if s.current_task.isNone then [0] else [])

/-! ## Interrupt entry points (src/kernel/task/mod.rs, src/kernel/interrupts/mod.rs) -/

/-- Vector base of the master interrupt controller; the timer vector. -/
def PIC_1_OFFSET : Nat := 32

/-- Observable actions of the page-fault entry point: the trap-context values
it logged, whether it reached map_vma_page, and whether it halted. -/
structure PageFaultAction where
  logged_cr2 : Nat
  logged_error_code : Nat
  called_map_vma_page : Bool
  halts : Bool
deriving Repr, DecidableEq

/-- page_fault_handler: logs the faulting address read from CR2, the
access-violation code and the stack frame, then unconditionally enters the
halt loop; it consults neither the scheduler nor any VMA manager.  The
arguments are the trap-context values it reads. -/
def page_fault_handler (cr2 error_code : Nat) : PageFaultAction :=
  { logged_cr2 := cr2
    logged_error_code := error_code
    called_map_vma_page := false
    halts := true }

/-- Observable actions of the timer-interrupt entry point. -/
structure TimerAction where
  invoked_scheduler : Bool
  eoi_vector : Option Nat
deriving Repr, DecidableEq

/-- timer_interrupt_handler: the schedule_next call in its body is commented
out; the only effect is the end-of-interrupt notification for the timer
vector (vector 32 of the master controller). -/
def timer_interrupt_handler : TimerAction :=
  { invoked_scheduler := false
    eoi_vector := some PIC_1_OFFSET }

/-! ## Helper lemmas -/

/-- Aligning down never increases an address. -/
theorem alignDown4K_le (a : Nat) : alignDown4K a ≤ a :=
  Nat.sub_le a (a % frameSize)

/-- The aligned-down address is frame-aligned. -/
theorem alignDown4K_mod (a : Nat) : alignDown4K a % frameSize = 0 := by
  have h := Nat.mod_add_div a frameSize
  have : alignDown4K a = frameSize * (a / frameSize) := by
    unfold alignDown4K
    omega
  rw [this]
  exact Nat.mul_mod_right _ _

/-- The last element of a list is a member. -/
theorem mem_of_getLast?_eq_some {α : Type} :
    ∀ {l : List α} {x : α}, l.getLast? = some x → x ∈ l
  | [], x, h => by simp at h
  | [a], x, h => by
    have ha : a = x := by simpa using h
    simp [ha]
  | _ :: b :: t, _, h => by
    rw [List.getLast?_cons_cons] at h
    exact List.mem_cons_of_mem _ (mem_of_getLast?_eq_some h)

/-- In a pairwise-related list, every member is the last element or relates
to it. -/
theorem getLast?_rel_of_pairwise {α : Type} {R : α → α → Prop} :
    ∀ (l : List α), l.Pairwise R → ∀ (x : α), l.getLast? = some x →
      ∀ y ∈ l, y = x ∨ R y x
  | [], _, x, h => by simp at h
  | [a], _, x, h => by
    intro y hy
    have ha : a = x := by simpa using h
    have hya : y = a := by simpa using hy
    exact Or.inl (hya.trans ha)
  | a :: b :: t, hp, x, h => by
    intro y hy
    rw [List.getLast?_cons_cons] at h
    rcases List.pairwise_cons.mp hp with ⟨hhead, htail⟩
    cases hy with
    | head => exact Or.inr (hhead x (mem_of_getLast?_eq_some h))
    | tail _ hy => exact getLast?_rel_of_pairwise (b :: t) htail x h y hy

/-- A nonempty list has a last element. -/
theorem getLast?_isSome_of_ne_nil {α : Type} {l : List α} (h : l ≠ []) :
    l.getLast?.isSome := by
  rw [List.getLast?_eq_getLast_of_ne_nil h]
  rfl

/-- Two members of a pairwise-related list coincide or relate one way. -/
theorem pairwise_mem_cases {α : Type} {R : α → α → Prop} :
    ∀ (l : List α), l.Pairwise R → ∀ (x y : α), x ∈ l → y ∈ l →
      x = y ∨ R x y ∨ R y x
  | [], _, x, _, hx, _ => by simp at hx
  | a :: t, hp, x, y, hx, hy => by
    rcases List.pairwise_cons.mp hp with ⟨hhead, htail⟩
    cases hx with
    | head =>
      cases hy with
      | head => exact Or.inl rfl
      | tail _ hy => exact Or.inr (Or.inl (hhead y hy))
    | tail _ hx =>
      cases hy with
      | head => exact Or.inr (Or.inr (hhead x hx))
      | tail _ hy => exact pairwise_mem_cases t htail x y hx hy

/-- The predecessor entry is a stored entry with key at most the query. -/
theorem predecessorEntry_mem {addr : Nat} {l : List (Nat × VirtualMemoryArea)}
    {kv : Nat × VirtualMemoryArea} (h : predecessorEntry addr l = some kv) :
    kv ∈ l ∧ kv.1 ≤ addr := by
  have hm := List.mem_filter.mp (mem_of_getLast?_eq_some h)
  exact ⟨hm.1, of_decide_eq_true hm.2⟩

/-- With strictly sorted keys, the predecessor entry has the largest stored
key at most the query. -/
theorem predecessorEntry_max {addr : Nat} {l : List (Nat × VirtualMemoryArea)}
    (hs : l.Pairwise (fun a b => a.1 < b.1)) {kv : Nat × VirtualMemoryArea}
    (h : predecessorEntry addr l = some kv) :
    ∀ kv2 ∈ l, kv2.1 ≤ addr → kv2.1 ≤ kv.1 := by
  intro kv2 h2 hle
  have hsf : (l.filter (fun kv => decide (kv.1 ≤ addr))).Pairwise
      (fun a b => a.1 < b.1) :=
    hs.sublist (List.filter_sublist l)
  have h2f : kv2 ∈ l.filter (fun kv => decide (kv.1 ≤ addr)) :=
    List.mem_filter.mpr ⟨h2, decide_eq_true hle⟩
  rcases getLast?_rel_of_pairwise _ hsf _ h kv2 h2f with heq | hlt
  · exact heq ▸ Nat.le_refl _
  · exact Nat.le_of_lt hlt

/-- A stored entry with key at most the query guarantees the predecessor
lookup finds something. -/
theorem predecessorEntry_isSome {addr : Nat} {l : List (Nat × VirtualMemoryArea)}
    {kv : Nat × VirtualMemoryArea} (hmem : kv ∈ l) (hle : kv.1 ≤ addr) :
    (predecessorEntry addr l).isSome := by
  apply getLast?_isSome_of_ne_nil
  intro hnil
  have hf : kv ∈ l.filter (fun kv => decide (kv.1 ≤ addr)) :=
    List.mem_filter.mpr ⟨hmem, decide_eq_true hle⟩
  rw [hnil] at hf
  simp at hf

/-- A u64 value below the canonical boundary passes VirtAddr construction
unchanged. -/
theorem virtAddrNew_of_lt {x : Nat} (h : x < 2 ^ 47) :
    virtAddrNew (x % wordMod) = some x := by
  have hw : x < wordMod := lt_trans h (by norm_num [wordMod])
  rw [Nat.mod_eq_of_lt hw]
  unfold virtAddrNew hiBits47
  rw [Nat.div_eq_of_lt h]
  simp

/-- A first-run tick behaves like a tick with the synthesized kernel task 0
already current. -/
theorem schedule_next_none_eq (q : List Task) (ctx : TaskContext) (cr3 : Nat) :
    Scheduler.schedule_next ⟨q, none⟩ ctx cr3 =
      Scheduler.schedule_next
        ⟨q, some ⟨0, ctx, cr3, VMA_Manager.new, []⟩⟩ ctx cr3 := rfl

/-- Evaluation of a tick with a current task and an empty ready queue. -/
theorem schedule_next_nil_eq (t : Task) (ctx : TaskContext) (cr3 : Nat) :
    Scheduler.schedule_next ⟨[], some t⟩ ctx cr3 =
      if cr3 ≠ t.cr3_phys_addr then
        ⟨⟨[], some { t with context := ctx }⟩, ctx,
          alignDown4K t.cr3_phys_addr, true⟩
      else
        ⟨⟨[], some { t with context := ctx }⟩, ctx, cr3, false⟩ := rfl

/-- Evaluation of a tick with a current task and a nonempty ready queue. -/
theorem schedule_next_cons_eq (d : Task) (ds : List Task) (t : Task)
    (ctx : TaskContext) (cr3 : Nat) :
    Scheduler.schedule_next ⟨d :: ds, some t⟩ ctx cr3 =
      if cr3 ≠ d.cr3_phys_addr then
        ⟨⟨ds ++ [{ t with context := ctx }], some d⟩, d.context,
          alignDown4K d.cr3_phys_addr, true⟩
      else
        ⟨⟨ds ++ [{ t with context := ctx }], some d⟩, d.context,
          cr3, false⟩ := rfl

/-- The scheduler state after a tick from an empty queue. -/
theorem scheduleNext_sched_nil (t : Task) (ctx : TaskContext) (cr3 : Nat) :
    (Scheduler.schedule_next ⟨[], some t⟩ ctx cr3).sched =
      ⟨[], some { t with context := ctx }⟩ := by
  rw [schedule_next_nil_eq]
  by_cases h : cr3 ≠ t.cr3_phys_addr <;> simp [h]

/-- The scheduler state after a tick from a nonempty queue. -/
theorem scheduleNext_sched_cons (d : Task) (ds : List Task) (t : Task)
    (ctx : TaskContext) (cr3 : Nat) :
    (Scheduler.schedule_next ⟨d :: ds, some t⟩ ctx cr3).sched =
      ⟨ds ++ [{ t with context := ctx }], some d⟩ := by
  rw [schedule_next_cons_eq]
  by_cases h : cr3 ≠ d.cr3_phys_addr <;> simp [h]

/-- A tick with a current task present rotates the held ids by one. -/
theorem scheduleNext_ids_some (q : List Task) (t : Task) (ctx : TaskContext)
    (cr3 : Nat) :
    schedTaskIds ((Scheduler.schedule_next ⟨q, some t⟩ ctx cr3).sched) =
      (schedTaskIds ⟨q, some t⟩).rotate 1 := by
  cases q with
  | nil =>
    rw [scheduleNext_sched_nil]
    simp [schedTaskIds, List.rotate_singleton]
  | cons d ds =>
    rw [scheduleNext_sched_cons]
    have hr : (schedTaskIds ⟨d :: ds, some t⟩).rotate 1
        = (d :: ds).map Task.id ++ [t.id] := by
      rw [show schedTaskIds ⟨d :: ds, some t⟩
          = t.id :: (d :: ds).map Task.id from rfl]
      rw [List.rotate_cons_succ, List.rotate_zero]
    rw [hr]
    simp [schedTaskIds]

/-- A tick with a current task keeps the current slot occupied. -/
theorem scheduleNext_isSome (q : List Task) (t : Task) (ctx : TaskContext)
    (cr3 : Nat) :
    ((Scheduler.schedule_next ⟨q, some t⟩ ctx cr3).sched.current_task).isSome
      = true := by
  cases q with
  | nil => rw [scheduleNext_sched_nil]; rfl
  | cons d ds => rw [scheduleNext_sched_cons]; rfl

/-- Switch/active-root behaviour of one tick that selects a task, current
slot initially occupied. -/
theorem scheduleNext_switch_spec_some (q : List Task) (t : Task)
    (ctx : TaskContext) (cr3 : Nat) (nt : Task)
    (hcur : ((Scheduler.schedule_next ⟨q, some t⟩ ctx cr3).sched.current_task)
      = some nt) :
    (Scheduler.schedule_next ⟨q, some t⟩ ctx cr3).switched
      = decide (cr3 ≠ nt.cr3_phys_addr) ∧
    (Scheduler.schedule_next ⟨q, some t⟩ ctx cr3).active_cr3
      = if cr3 ≠ nt.cr3_phys_addr then alignDown4K nt.cr3_phys_addr
        else cr3 := by
  cases q with
  | nil =>
    rw [scheduleNext_sched_nil] at hcur
    injection hcur with hcur
    rw [schedule_next_nil_eq]
    by_cases h : cr3 ≠ t.cr3_phys_addr
    · have hnt : cr3 ≠ nt.cr3_phys_addr := by rw [← hcur]; exact h
      simp [h, hnt, ← hcur]
    · have hnt : ¬cr3 ≠ nt.cr3_phys_addr := by rw [← hcur]; exact h
      simp [h, hnt]
  | cons d ds =>
    rw [scheduleNext_sched_cons] at hcur
    injection hcur with hcur
    rw [schedule_next_cons_eq]
    by_cases h : cr3 ≠ d.cr3_phys_addr
    · have hnt : cr3 ≠ nt.cr3_phys_addr := by rw [← hcur]; exact h
      simp [h, hnt, ← hcur]
    · have hnt : ¬cr3 ≠ nt.cr3_phys_addr := by rw [← hcur]; exact h
      simp [h, hnt]

/-- Switch/active-root behaviour of one tick that selects a task, for any
starting state. -/
theorem scheduleNext_switch_spec (s : Scheduler) (ctx : TaskContext)
    (cr3 : Nat) (nt : Task)
    (hcur : ((s.schedule_next ctx cr3).sched.current_task) = some nt) :
    (s.schedule_next ctx cr3).switched = decide (cr3 ≠ nt.cr3_phys_addr) ∧
    (s.schedule_next ctx cr3).active_cr3
      = if cr3 ≠ nt.cr3_phys_addr then alignDown4K nt.cr3_phys_addr
        else cr3 := by
  obtain ⟨q, cur⟩ := s
  cases cur with
  | none =>
    rw [schedule_next_none_eq] at hcur ⊢
    exact scheduleNext_switch_spec_some q _ ctx cr3 nt hcur
  | some t => exact scheduleNext_switch_spec_some q t ctx cr3 nt hcur

/-- A tick keeps the current-task slot occupied. -/
theorem tick_isSome (ms : MachineState)
    (h : ms.sched.current_task.isSome = true) :
    ((tick ms).sched.current_task).isSome = true := by
  obtain ⟨⟨q, cur⟩, ctx, cr3⟩ := ms
  cases cur with
  | none => simp at h
  | some t => exact scheduleNext_isSome q t ctx cr3

/-- A tick rotates the held ids by one. -/
theorem tick_ids (ms : MachineState)
    (h : ms.sched.current_task.isSome = true) :
    schedTaskIds (tick ms).sched = (schedTaskIds ms.sched).rotate 1 := by
  obtain ⟨⟨q, cur⟩, ctx, cr3⟩ := ms
  cases cur with
  | none => simp at h
  | some t => exact scheduleNext_ids_some q t ctx cr3

/-- With the current slot occupied, the current id heads the held ids. -/
theorem current_head (s : Scheduler) (h : s.current_task.isSome = true) :
    s.current_task.map Task.id = (schedTaskIds s).head? := by
  obtain ⟨q, cur⟩ := s
  cases cur with
  | none => simp at h
  | some t => rfl

/-- k ticks rotate the held ids by k and keep the current slot occupied. -/
theorem runTicks_ids (k : Nat) (ms : MachineState)
    (h : ms.sched.current_task.isSome = true) :
    schedTaskIds (runTicks k ms).sched = (schedTaskIds ms.sched).rotate k ∧
    ((runTicks k ms).sched.current_task).isSome = true := by
  induction k generalizing ms with
  | zero => exact ⟨(List.rotate_zero _).symm, h⟩
  | succ n ih =>
    obtain ⟨h1, h2⟩ := ih (tick ms) (tick_isSome ms h)
    refine ⟨?_, h2⟩
    show schedTaskIds (runTicks n (tick ms)).sched = _
    rw [h1, tick_ids ms h, List.rotate_rotate, Nat.add_comm]

/-- The ids observed in the current slot over the first k ticks are the
first k entries of the held ids rotated by one. -/
theorem currentIdTrace_eq (k : Nat) (ms : MachineState)
    (h : ms.sched.current_task.isSome = true)
    (hk : k ≤ (schedTaskIds ms.sched).length) :
    currentIdTrace k ms
      = (((schedTaskIds ms.sched).rotate 1).take k).map some := by
  induction k generalizing ms with
  | zero => rfl
  | succ n ih =>
    have hsome := tick_isSome ms h
    have hids := tick_ids ms h
    show ((tick ms).sched.current_task.map Task.id)
        :: currentIdTrace n (tick ms) = _
    have hlen : n ≤ (schedTaskIds (tick ms).sched).length := by
      rw [hids, List.length_rotate]
      omega
    rw [current_head _ hsome, hids, ih (tick ms) hsome hlen, hids]
    have hml : ((schedTaskIds ms.sched).rotate 1).length
        = (schedTaskIds ms.sched).length := List.length_rotate _ 1
    have hmne : (schedTaskIds ms.sched).rotate 1 ≠ [] := by
      intro hnil
      have h0 : (schedTaskIds ms.sched).length = 0 := by
        rw [← hml, hnil]
        rfl
      omega
    obtain ⟨hd, tl, hcons⟩ := List.exists_cons_of_ne_nil hmne
    rw [hcons, List.rotate_cons_succ, List.rotate_zero]
    have htl : n ≤ tl.length := by
      have hml2 : ((schedTaskIds ms.sched).rotate 1).length = tl.length + 1 := by
        rw [hcons]
        rfl
      omega
    rw [List.take_append_of_le_length htl]
    rfl

/-- Counting an id among some-wrapped ids. -/
theorem count_some_map (m : List Nat) (x : Nat) :
    (m.map some).count (some x) = m.count x := by
  induction m with
  | nil => rfl
  | cons a t ih => simp [List.count_cons, ih]

/-- Aligning an already frame-aligned address is the identity. -/
theorem alignDown4K_of_aligned {a : Nat} (h : a % frameSize = 0) :
    alignDown4K a = a := by
  unfold alignDown4K
  omega

/-! ## Claims -/

/-- C1.  The claim states the page-fault handler calls map_vma_page on the
current task's VMA manager and returns normally when that call succeeds.  The
handler in the sources does not: at a fault address for which map_vma_page
would return Ok (address 0x2500, owned by a Data VMA starting at 0x2000 of
size 0x1000, with a free frame available at 0x100000), the handler merely
logs the trap values and halts, never invoking map_vma_page — contradicting
the claim and the handler's own comment that only unresolvable faults shall
halt the kernel. -/
theorem pageFaultHandler_ignoresResolvableFault :
    map_vma_page ⟨[(0x2000, ⟨0x2000, 0x1000, 7, VMA_Type.Data⟩)]⟩
        ⟨[(0x100000, 0x10000)], 0x100000⟩ ⟨[]⟩ 0x2500
      = some (.ok (), ⟨[(0x100000, 0x10000)], 0x101000⟩, ⟨[(0x2000, 0x100000, 7)]⟩) ∧
    page_fault_handler 0x2500 0
      = { logged_cr2 := 0x2500, logged_error_code := 0
          called_map_vma_page := false, halts := true } := by
  exact ⟨rfl, rfl⟩

/-- C2.  The claim states the timer entry point both invokes the scheduler
and acknowledges the interrupt controller on every tick.  In the sources the
schedule_next call is commented out: on a tick the handler acknowledges the
timer vector (32) but never invokes the scheduler, contradicting the claim
and the handler's own numbered comment that names the scheduler call as its
first step. -/
theorem timerHandler_eoiWithoutScheduler :
    timer_interrupt_handler.invoked_scheduler = false ∧
    timer_interrupt_handler.eoi_vector = some PIC_1_OFFSET :=
  ⟨rfl, rfl⟩

/-- C3 counterexample.  With declared regions (0, 4096) and (8192, 4096) and
cursor 4096, allocate_frame returns no frame and leaves the state unchanged,
although the frame-aligned address 8192 at or above the cursor has its full
4 KiB extent inside the second declared region: the allocator fails without
having exhausted the declared regions, refuting the claim that None arises
only at exhaustion. -/
theorem allocateFrame_failsBeforeExhaustion :
    allocate_frame ⟨[(0, 4096), (8192, 4096)], 4096⟩
      = some (none, ⟨[(0, 4096), (8192, 4096)], 4096⟩) ∧
    8192 % frameSize = 0 ∧
    4096 ≤ 8192 ∧
    (8192, 4096) ∈ [((0 : Nat), (4096 : Nat)), (8192, 4096)] ∧
    (8192 : Nat) ≤ 8192 ∧ 8192 + frameSize ≤ 8192 + 4096 := by
  decide

/-- C3 amended.  allocate_frame considers only the single frame obtained by
aligning the cursor down: when that frame's full 4 KiB extent lies inside
some declared region, it returns the frame base and advances the cursor just
past the frame, leaving the region table unchanged; otherwise it returns no
frame and leaves the state unchanged, even when other declared regions still
contain free frames.  Stated for states whose cursor stays a representable
physical address after the advance and whose region bounds do not wrap. -/
theorem allocateFrame_cursorFrameCharacterization (s : PmmState)
    (hcur : s.next_free_frame + frameSize < physMax)
    (hreg : ∀ r ∈ s.available_regions, r.1 + r.2 < wordMod) :
    (∀ f s2, allocate_frame s = some (some f, s2) →
        f = alignDown4K s.next_free_frame ∧
        f % frameSize = 0 ∧
        (∃ r ∈ s.available_regions, r.1 ≤ f ∧ f + frameSize ≤ r.1 + r.2) ∧
        s2.next_free_frame = f + frameSize ∧
        s2.available_regions = s.available_regions) ∧
    (∀ s2, allocate_frame s = some (none, s2) →
        s2 = s ∧
        ¬ ∃ r ∈ s.available_regions,
            r.1 ≤ alignDown4K s.next_free_frame ∧
            alignDown4K s.next_free_frame + frameSize ≤ r.1 + r.2) := by
  have hfa : alignDown4K s.next_free_frame + frameSize < physMax :=
    lt_of_le_of_lt (Nat.add_le_add_right (alignDown4K_le _) _) hcur
  have hfaw : alignDown4K s.next_free_frame + frameSize < wordMod := by
    have : physMax < wordMod := by decide
    omega
  have hadm : ∀ r ∈ s.available_regions,
      (regionAdmits (alignDown4K s.next_free_frame) r = true ↔
        (r.1 ≤ alignDown4K s.next_free_frame ∧
         alignDown4K s.next_free_frame + frameSize ≤ r.1 + r.2)) := by
    intro r hr
    unfold regionAdmits
    rw [Nat.mod_eq_of_lt hfaw, Nat.mod_eq_of_lt (hreg r hr)]
    simp
  unfold allocate_frame
  by_cases hany : s.available_regions.any (regionAdmits (alignDown4K s.next_free_frame)) = true
  · rw [if_pos hany]
    have hnew : physAddrNew (alignDown4K s.next_free_frame + frameSize)
        = some (alignDown4K s.next_free_frame + frameSize) := by
      unfold physAddrNew
      rw [if_pos hfa]
    rw [hnew]
    constructor
    · intro f s2 h
      injection h with h
      injection h with h1 h2
      injection h1 with h1
      subst h1
      subst h2
      refine ⟨rfl, alignDown4K_mod _, ?_, rfl, rfl⟩
      rcases List.any_eq_true.mp hany with ⟨r, hr, hradm⟩
      exact ⟨r, hr, (hadm r hr).mp hradm⟩
    · intro s2 h
      injection h with h
      injection h with h1 h2
      exact absurd h1 (by simp)
  · rw [if_neg hany]
    constructor
    · intro f s2 h
      injection h with h
      injection h with h1 h2
      exact absurd h1 (by simp)
    · intro s2 h
      injection h with h
      injection h with h1 h2
      refine ⟨h2.symm, ?_⟩
      rintro ⟨r, hr, hle, hfit⟩
      exact hany (List.any_eq_true.mpr ⟨r, hr, (hadm r hr).mpr ⟨hle, hfit⟩⟩)

/-- C3 witness: the characterization applied to the concrete state with one
region (0, 16384) and cursor 4100. -/
theorem allocateFrame_cursorFrameCharacterization_witness :
    (∀ f s2, allocate_frame ⟨[(0, 16384)], 4100⟩ = some (some f, s2) →
        f = alignDown4K 4100 ∧
        f % frameSize = 0 ∧
        (∃ r ∈ [((0 : Nat), (16384 : Nat))], r.1 ≤ f ∧ f + frameSize ≤ r.1 + r.2) ∧
        s2.next_free_frame = f + frameSize ∧
        s2.available_regions = [(0, 16384)]) ∧
    (∀ s2, allocate_frame ⟨[(0, 16384)], 4100⟩ = some (none, s2) →
        s2 = ⟨[(0, 16384)], 4100⟩ ∧
        ¬ ∃ r ∈ [((0 : Nat), (16384 : Nat))],
            r.1 ≤ alignDown4K 4100 ∧ alignDown4K 4100 + frameSize ≤ r.1 + r.2) :=
  allocateFrame_cursorFrameCharacterization ⟨[(0, 16384)], 4100⟩ (by decide)
    (by decide)

/-- C4 counterexample.  The map accepts areas whose ranges overlap (add_area
rejects only equal start addresses).  With a stored Data area of start 0 and
size 0x100000 and a stored Heap area of start 0x1000 and size 16, the
address 0x2000 lies inside the first stored area, yet find_area returns no
area at all: the predecessor entry is the second area and the end-bound test
fails there.  This refutes the claim as stated for arbitrary manager
states. -/
theorem findArea_missesCoveredAddress :
    VMA_Manager.find_area
        ⟨[(0, ⟨0, 0x100000, 3, VMA_Type.Data⟩),
          (0x1000, ⟨0x1000, 16, 3, VMA_Type.Heap⟩)]⟩ 0x2000 = some none ∧
    ((0 : Nat), (⟨0, 0x100000, 3, VMA_Type.Data⟩ : VirtualMemoryArea)) ∈
      [((0 : Nat), (⟨0, 0x100000, 3, VMA_Type.Data⟩ : VirtualMemoryArea)),
       (0x1000, ⟨0x1000, 16, 3, VMA_Type.Heap⟩)] ∧
    (0 : Nat) ≤ 0x2000 ∧ (0x2000 : Nat) < 0 + 0x100000 := by
  decide

/-- Predecessor lookup with containment test is exact interval lookup, for
managers with key-consistent, sorted, disjoint areas whose ends stay below
the canonical boundary. -/
theorem findArea_spec (m : VMA_Manager)
    (hpw : m.areas.Pairwise (fun a b => a.1 < b.1 ∧ a.1 + a.2.size ≤ b.1))
    (hkey : ∀ kv ∈ m.areas, kv.2.start_addr = kv.1)
    (hend : ∀ kv ∈ m.areas, kv.1 + kv.2.size < 2 ^ 47)
    (addr : Nat) :
    (∀ kv ∈ m.areas,
        (m.find_area addr = some (some kv.2) ↔
          kv.1 ≤ addr ∧ addr < kv.1 + kv.2.size)) ∧
    ((∀ kv ∈ m.areas, ¬(kv.1 ≤ addr ∧ addr < kv.1 + kv.2.size)) →
        m.find_area addr = some none) := by
  have hsort : m.areas.Pairwise (fun a b => a.1 < b.1) :=
    hpw.imp (fun h => h.1)
  cases hpred : predecessorEntry addr m.areas with
  | none =>
    have hres : m.find_area addr = some none := by
      unfold VMA_Manager.find_area
      rw [hpred]
    refine ⟨?_, fun _ => hres⟩
    intro kv hkv
    constructor
    · intro habs
      rw [hres] at habs
      simp at habs
    · rintro ⟨h1, _⟩
      have hsome := predecessorEntry_isSome hkv h1
      rw [hpred] at hsome
      simp at hsome
  | some p =>
    obtain ⟨k, a⟩ := p
    obtain ⟨hpmem, hple⟩ := predecessorEntry_mem hpred
    have hmax := predecessorEntry_max hsort hpred
    have hendp : virtAddrNew ((k + a.size) % wordMod) = some (k + a.size) :=
      virtAddrNew_of_lt (hend (k, a) hpmem)
    have hres : m.find_area addr =
        some (if k ≤ addr ∧ addr < k + a.size then some a else none) := by
      unfold VMA_Manager.find_area
      rw [hpred]
      show (match virtAddrNew ((k + a.size) % wordMod) with
        | some end_addr =>
          some (if k ≤ addr ∧ addr < end_addr then some a else none)
        | none => none) =
        some (if k ≤ addr ∧ addr < k + a.size then some a else none)
      rw [hendp]
    have hcontained_eq : ∀ kv ∈ m.areas,
        kv.1 ≤ addr → addr < kv.1 + kv.2.size → kv = (k, a) := by
      intro kv hkv h1 h2
      rcases pairwise_mem_cases _ hpw kv (k, a) hkv hpmem with heq | hlt | hgt
      · exact heq
      · exact absurd (lt_of_lt_of_le h2 (le_trans hlt.2 hple)) (lt_irrefl addr)
      · exact absurd hgt.1 (not_lt.mpr (hmax kv hkv h1))
    by_cases hc : k ≤ addr ∧ addr < k + a.size
    · rw [if_pos hc] at hres
      refine ⟨?_, ?_⟩
      · intro kv hkv
        constructor
        · intro heq
          rw [hres] at heq
          have hva : a = kv.2 := by
            injection heq with heq
            injection heq
          have hk : kv.1 = k := by
            have h1 := hkey kv hkv
            have h2 := hkey (k, a) hpmem
            rw [← h1, ← hva, h2]
          rw [hk, ← hva]
          exact hc
        · rintro ⟨h1, h2⟩
          have heq := hcontained_eq kv hkv h1 h2
          rw [hres, heq]
      · intro hnone
        exact absurd hc (hnone (k, a) hpmem)
    · rw [if_neg hc] at hres
      refine ⟨?_, fun _ => hres⟩
      intro kv hkv
      constructor
      · intro habs
        rw [hres] at habs
        simp at habs
      · rintro ⟨h1, h2⟩
        have heq := hcontained_eq kv hkv h1 h2
        rw [heq] at h1 h2
        exact absurd ⟨h1, h2⟩ hc

/-- C4 amended.  For a VMA manager whose stored areas are keyed by their own
start address, pairwise disjoint in increasing key order, and whose end
addresses stay below the canonical boundary, find_area returns a stored area
exactly when that area contains the address (start at most the address,
address before start plus size), and returns no area for every address in a
gap between areas. -/
theorem findArea_containmentCharacterization (m : VMA_Manager)
    (hpw : m.areas.Pairwise (fun a b => a.1 < b.1 ∧ a.1 + a.2.size ≤ b.1))
    (hkey : ∀ kv ∈ m.areas, kv.2.start_addr = kv.1)
    (hend : ∀ kv ∈ m.areas, kv.1 + kv.2.size < 2 ^ 47)
    (addr : Nat) :
    (∀ kv ∈ m.areas,
        (m.find_area addr = some (some kv.2) ↔
          kv.1 ≤ addr ∧ addr < kv.1 + kv.2.size)) ∧
    ((∀ kv ∈ m.areas, ¬(kv.1 ≤ addr ∧ addr < kv.1 + kv.2.size)) →
        m.find_area addr = some none) :=
  findArea_spec m hpw hkey hend addr

/-- C4 witness: the characterization applied to a concrete manager with one
Data area of start 0x2000 and size 0x1000, at query address 0x2500. -/
theorem findArea_containmentCharacterization_witness :
    (⟨[(0x2000, ⟨0x2000, 0x1000, 7, VMA_Type.Data⟩)]⟩ : VMA_Manager).find_area
        0x2500 = some (some ⟨0x2000, 0x1000, 7, VMA_Type.Data⟩) :=
  ((findArea_containmentCharacterization
      ⟨[(0x2000, ⟨0x2000, 0x1000, 7, VMA_Type.Data⟩)]⟩
      (by decide) (by decide) (by decide) 0x2500).1
    (0x2000, ⟨0x2000, 0x1000, 7, VMA_Type.Data⟩) (by decide)).mpr (by decide)

/-- C5.  For a well-formed manager (key-consistent, sorted, disjoint areas
with representable ends) and a cursor whose frame advance stays a
representable physical address: when no stored VMA contains the fault
address, map_vma_page fails with NoAreaFound and the allocator and
page-table states are returned unchanged; when a stored VMA contains it,
the outcome of the one allocate_frame request decides the result — OOM is
propagated on exhaustion (page tables untouched), and on success exactly
one single-page mapping is appended, for the page containing the fault
address, with the owning VMA's permission flags, alongside the allocator
state after that single request. -/
theorem mapVmaPage_resolution (m : VMA_Manager) (pmm : PmmState)
    (pt : PageTableState) (fault_addr : Nat)
    (hpw : m.areas.Pairwise (fun a b => a.1 < b.1 ∧ a.1 + a.2.size ≤ b.1))
    (hkey : ∀ kv ∈ m.areas, kv.2.start_addr = kv.1)
    (hend : ∀ kv ∈ m.areas, kv.1 + kv.2.size < 2 ^ 47) :
    ((∀ kv ∈ m.areas, ¬(kv.1 ≤ fault_addr ∧ fault_addr < kv.1 + kv.2.size)) →
        map_vma_page m pmm pt fault_addr
          = some (.error .NoAreaFound, pmm, pt)) ∧
    (∀ kv ∈ m.areas, kv.1 ≤ fault_addr → fault_addr < kv.1 + kv.2.size →
        (∀ s2, allocate_frame pmm = some (none, s2) →
            map_vma_page m pmm pt fault_addr
              = some (.error .OOM, s2, pt)) ∧
        (∀ f s2, allocate_frame pmm = some (some f, s2) →
            map_vma_page m pmm pt fault_addr
              = some (.ok (), s2,
                  ⟨pt.mappings ++ [(alignDown4K fault_addr, f, kv.2.flags)]⟩))) := by
  constructor
  · intro hnone
    have hfind := (findArea_spec m hpw hkey hend fault_addr).2 hnone
    unfold map_vma_page
    rw [hfind]
  · intro kv hkv h1 h2
    have hfind := ((findArea_spec m hpw hkey hend fault_addr).1 kv hkv).mpr ⟨h1, h2⟩
    constructor
    · intro s2 halloc
      unfold map_vma_page
      rw [hfind]
      show (match allocate_frame pmm with
        | none => none
        | some (none, pmm2) => some (Except.error VMA_Error.OOM, pmm2, pt)
        | some (some frame, pmm2) =>
          some (Except.ok (), pmm2,
            map_page pt (alignDown4K fault_addr) frame kv.2.flags)) =
        some (Except.error VMA_Error.OOM, s2, pt)
      rw [halloc]
    · intro f s2 halloc
      unfold map_vma_page
      rw [hfind]
      show (match allocate_frame pmm with
        | none => none
        | some (none, pmm2) => some (Except.error VMA_Error.OOM, pmm2, pt)
        | some (some frame, pmm2) =>
          some (Except.ok (), pmm2,
            map_page pt (alignDown4K fault_addr) frame kv.2.flags)) =
        some (Except.ok (), s2,
          ⟨pt.mappings ++ [(alignDown4K fault_addr, f, kv.2.flags)]⟩)
      rw [halloc]
      rfl

/-- C5 witness: the resolution theorem applied to the concrete manager with
one Data area at 0x2000 of size 0x1000 and flags 7, an allocator with one
region at 0x100000, and fault address 0x2500: exactly the mapping
(0x2000, 0x100000, 7) is installed. -/
theorem mapVmaPage_resolution_witness :
    map_vma_page ⟨[(0x2000, ⟨0x2000, 0x1000, 7, VMA_Type.Data⟩)]⟩
        ⟨[(0x100000, 0x10000)], 0x100000⟩ ⟨[(0, 0, 0)]⟩ 0x2500
      = some (.ok (), ⟨[(0x100000, 0x10000)], 0x101000⟩,
          ⟨[(0, 0, 0)] ++ [(0x2000, 0x100000, 7)]⟩) :=
  (((mapVmaPage_resolution ⟨[(0x2000, ⟨0x2000, 0x1000, 7, VMA_Type.Data⟩)]⟩
        ⟨[(0x100000, 0x10000)], 0x100000⟩ ⟨[(0, 0, 0)]⟩ 0x2500
        (by decide) (by decide) (by decide)).2
      (0x2000, ⟨0x2000, 0x1000, 7, VMA_Type.Data⟩) (by decide)
      (by decide) (by decide)).2
    0x100000 ⟨[(0x100000, 0x10000)], 0x101000⟩ (by decide))

/-- C10 counterexample.  find_area is not abort-free for every manager state:
for a stored area starting at the canonical-boundary page 0x7FFFFFFFF000
with size 0x800000002000, the end-address u64 sum is 0x1000000001000, whose
upper bits fit no accepted pattern, so the VirtAddr construction inside the
end-address computation aborts on lookup of the area's own start address. -/
theorem findArea_abortsOnNoncanonicalEnd :
    VMA_Manager.find_area
        ⟨[(0x7FFFFFFFF000,
           ⟨0x7FFFFFFFF000, 0x800000002000, 3, VMA_Type.Data⟩)]⟩
        0x7FFFFFFFF000 = none := by
  decide

/-- C10 amended.  find_area terminates and returns an Option for every query
address whenever every stored area's end-address u64 sum is accepted by
VirtAddr construction; an area whose sum is rejected makes the end-address
computation abort, as the counterexample shows. -/
theorem findArea_totalOnAcceptedEnds (m : VMA_Manager) (addr : Nat)
    (h : ∀ kv ∈ m.areas,
        (virtAddrNew ((kv.1 + kv.2.size) % wordMod)).isSome = true) :
    (m.find_area addr).isSome = true := by
  unfold VMA_Manager.find_area
  cases hpred : predecessorEntry addr m.areas with
  | none => rfl
  | some p =>
    obtain ⟨k, a⟩ := p
    have hm := (predecessorEntry_mem hpred).1
    cases hv : virtAddrNew ((k + a.size) % wordMod) with
    | none =>
      have hna := h (k, a) hm
      rw [hv] at hna
      simp at hna
    | some e =>
      show (match virtAddrNew ((k + a.size) % wordMod) with
        | some end_addr =>
          some (if k ≤ addr ∧ addr < end_addr then some a else none)
        | none => none).isSome = true
      rw [hv]
      rfl

/-- C10 witness: totality applied to the concrete one-area manager at query
address 0x2500. -/
theorem findArea_totalOnAcceptedEnds_witness :
    ((⟨[(0x2000, ⟨0x2000, 0x1000, 7, VMA_Type.Data⟩)]⟩ : VMA_Manager).find_area
        0x2500).isSome = true :=
  findArea_totalOnAcceptedEnds
    ⟨[(0x2000, ⟨0x2000, 0x1000, 7, VMA_Type.Data⟩)]⟩ 0x2500 (by decide)

/-- C6.  Round-robin closure: from a scheduler state holding N spawned
tasks with pairwise distinct ids — the running one in the current slot and
the rest queued — N consecutive schedule_next invocations (one per timer
tick, no suppression) put each of the N task ids in the current-task slot
exactly once, and afterwards the ready queue holds exactly the ids it held
before, in the same relative order, with the original task current again. -/
theorem roundRobinClosure (t : Task) (q : List Task) (ctx : TaskContext)
    (cr3 : Nat) (hnodup : ((t :: q).map Task.id).Nodup) :
    ((runTicks ((t :: q).length) ⟨⟨q, some t⟩, ctx, cr3⟩).sched.task_queue.map
        Task.id = q.map Task.id) ∧
    ((runTicks ((t :: q).length) ⟨⟨q, some t⟩, ctx, cr3⟩).sched.current_task.map
        Task.id = some t.id) ∧
    (∀ x ∈ (t :: q).map Task.id,
        (currentIdTrace ((t :: q).length) ⟨⟨q, some t⟩, ctx, cr3⟩).count (some x)
          = 1) := by
  have hsome : (MachineState.mk ⟨q, some t⟩ ctx cr3).sched.current_task.isSome
      = true := rfl
  have hids0 : schedTaskIds (MachineState.mk ⟨q, some t⟩ ctx cr3).sched
      = (t :: q).map Task.id := rfl
  have hlen : (t :: q).length
      = (schedTaskIds (MachineState.mk ⟨q, some t⟩ ctx cr3).sched).length := by
    rw [hids0, List.length_map]
  obtain ⟨hidsN, hsomeN⟩ :=
    runTicks_ids ((t :: q).length) ⟨⟨q, some t⟩, ctx, cr3⟩ hsome
  have hrot : ((t :: q).map Task.id).rotate ((t :: q).length)
      = (t :: q).map Task.id := by
    have hlm : (t :: q).length = ((t :: q).map Task.id).length :=
      (List.length_map _ _).symm
    rw [hlm, List.rotate_length]
  rw [hids0, hrot] at hidsN
  obtain ⟨nt, hnt⟩ := Option.isSome_iff_exists.mp hsomeN
  have hdec : schedTaskIds
      (runTicks ((t :: q).length) ⟨⟨q, some t⟩, ctx, cr3⟩).sched
      = nt.id :: (runTicks ((t :: q).length)
          ⟨⟨q, some t⟩, ctx, cr3⟩).sched.task_queue.map Task.id := by
    unfold schedTaskIds
    rw [hnt]
    rfl
  rw [hdec] at hidsN
  have hhead : nt.id = t.id := (List.cons.injEq _ _ _ _).mp hidsN |>.1
  have htail : (runTicks ((t :: q).length)
      ⟨⟨q, some t⟩, ctx, cr3⟩).sched.task_queue.map Task.id = q.map Task.id :=
    (List.cons.injEq _ _ _ _).mp hidsN |>.2
  refine ⟨htail, ?_, ?_⟩
  · rw [hnt]
    simp [hhead]
  · intro x hx
    have htr := currentIdTrace_eq ((t :: q).length) ⟨⟨q, some t⟩, ctx, cr3⟩
      hsome (le_of_eq hlen)
    rw [hids0] at htr
    have htake : (((t :: q).map Task.id).rotate 1).take ((t :: q).length)
        = ((t :: q).map Task.id).rotate 1 := by
      have hl2 : (t :: q).length = (((t :: q).map Task.id).rotate 1).length := by
        rw [List.length_rotate, List.length_map]
      rw [hl2, List.take_length]
    rw [htake] at htr
    rw [htr, count_some_map]
    have hperm := List.rotate_perm ((t :: q).map Task.id) 1
    rw [hperm.count_eq]
    exact List.count_eq_one_of_mem hnodup hx

/-- C6 witness: the closure applied to tasks 1 (current) and 2 (queued):
after two ticks the queue again holds exactly id 2, task 1 is current, and
each id was current exactly once. -/
theorem roundRobinClosure_witness :
    ((runTicks ((( ⟨1, TaskContext.zero, 0, VMA_Manager.new, []⟩ : Task)
          :: [⟨2, TaskContext.zero, 0, VMA_Manager.new, []⟩]).length)
        ⟨⟨[⟨2, TaskContext.zero, 0, VMA_Manager.new, []⟩],
          some ⟨1, TaskContext.zero, 0, VMA_Manager.new, []⟩⟩,
         TaskContext.zero, 0⟩).sched.task_queue.map Task.id
      = ([⟨2, TaskContext.zero, 0, VMA_Manager.new, []⟩] : List Task).map
          Task.id) ∧
    ((runTicks ((( ⟨1, TaskContext.zero, 0, VMA_Manager.new, []⟩ : Task)
          :: [⟨2, TaskContext.zero, 0, VMA_Manager.new, []⟩]).length)
        ⟨⟨[⟨2, TaskContext.zero, 0, VMA_Manager.new, []⟩],
          some ⟨1, TaskContext.zero, 0, VMA_Manager.new, []⟩⟩,
         TaskContext.zero, 0⟩).sched.current_task.map Task.id
      = some (Task.id ⟨1, TaskContext.zero, 0, VMA_Manager.new, []⟩)) ∧
    (∀ x ∈ ((( ⟨1, TaskContext.zero, 0, VMA_Manager.new, []⟩ : Task)
          :: [⟨2, TaskContext.zero, 0, VMA_Manager.new, []⟩]).map Task.id),
        (currentIdTrace ((( ⟨1, TaskContext.zero, 0, VMA_Manager.new, []⟩ : Task)
            :: [⟨2, TaskContext.zero, 0, VMA_Manager.new, []⟩]).length)
          ⟨⟨[⟨2, TaskContext.zero, 0, VMA_Manager.new, []⟩],
            some ⟨1, TaskContext.zero, 0, VMA_Manager.new, []⟩⟩,
           TaskContext.zero, 0⟩).count (some x) = 1) :=
  roundRobinClosure ⟨1, TaskContext.zero, 0, VMA_Manager.new, []⟩
    [⟨2, TaskContext.zero, 0, VMA_Manager.new, []⟩]
    TaskContext.zero 0 (by decide)

/-- C7.  On every invocation of schedule_next, switch_cr3 is not invoked
when the selected next task's page-table root equals the currently active
root; and across two consecutive ticks that select tasks sharing one
frame-aligned page-table root, the second tick performs no root switch. -/
theorem rootSwitchMinimality (s : Scheduler) (ctx : TaskContext) (cr3 : Nat) :
    (∀ nt, (s.schedule_next ctx cr3).sched.current_task = some nt →
        nt.cr3_phys_addr = cr3 →
        (s.schedule_next ctx cr3).switched = false) ∧
    (∀ nt1 nt2,
        (s.schedule_next ctx cr3).sched.current_task = some nt1 →
        (((s.schedule_next ctx cr3).sched).schedule_next
            (s.schedule_next ctx cr3).ctx
            (s.schedule_next ctx cr3).active_cr3).sched.current_task
          = some nt2 →
        nt2.cr3_phys_addr = nt1.cr3_phys_addr →
        nt1.cr3_phys_addr % frameSize = 0 →
        (((s.schedule_next ctx cr3).sched).schedule_next
            (s.schedule_next ctx cr3).ctx
            (s.schedule_next ctx cr3).active_cr3).switched = false) := by
  constructor
  · intro nt hcur heq
    have h := (scheduleNext_switch_spec s ctx cr3 nt hcur).1
    rw [h, heq]
    simp
  · intro nt1 nt2 h1 h2 heq halign
    have ha := (scheduleNext_switch_spec s ctx cr3 nt1 h1).2
    have hactive : (s.schedule_next ctx cr3).active_cr3
        = nt1.cr3_phys_addr := by
      rw [ha]
      by_cases h : cr3 ≠ nt1.cr3_phys_addr
      · rw [if_pos h, alignDown4K_of_aligned halign]
      · rw [if_neg h]
        push_neg at h
        exact h
    have hsw := (scheduleNext_switch_spec _ _ _ nt2 h2).1
    rw [hsw, hactive, heq]
    simp

/-- C7 witness: two tasks sharing the aligned root 0x4000, first tick from
active root 0x9000 selects task 2 (switching), second tick selects task 1
without a switch. -/
theorem rootSwitchMinimality_witness :
    (((Scheduler.schedule_next
          ⟨[⟨2, TaskContext.zero, 0x4000, VMA_Manager.new, []⟩],
            some ⟨1, TaskContext.zero, 0x4000, VMA_Manager.new, []⟩⟩
          TaskContext.zero 0x9000).sched).schedule_next
        (Scheduler.schedule_next
          ⟨[⟨2, TaskContext.zero, 0x4000, VMA_Manager.new, []⟩],
            some ⟨1, TaskContext.zero, 0x4000, VMA_Manager.new, []⟩⟩
          TaskContext.zero 0x9000).ctx
        (Scheduler.schedule_next
          ⟨[⟨2, TaskContext.zero, 0x4000, VMA_Manager.new, []⟩],
            some ⟨1, TaskContext.zero, 0x4000, VMA_Manager.new, []⟩⟩
          TaskContext.zero 0x9000).active_cr3).switched = false :=
  (rootSwitchMinimality
      ⟨[⟨2, TaskContext.zero, 0x4000, VMA_Manager.new, []⟩],
        some ⟨1, TaskContext.zero, 0x4000, VMA_Manager.new, []⟩⟩
      TaskContext.zero 0x9000).2
    ⟨2, TaskContext.zero, 0x4000, VMA_Manager.new, []⟩
    ⟨1, TaskContext.zero, 0x4000, VMA_Manager.new, []⟩
    (by decide) (by decide) (by decide) (by decide)

/-- C8.  In every scheduler state reachable by add_task and schedule_next
calls from a fresh scheduler, the ids held by the scheduler (current-task
slot and ready queue together) are a permutation of the ids of all created
tasks: every created task occupies exactly one of the two places, exactly
once — never both, never neither. -/
theorem reachable_exactlyOnePlace (s : Scheduler) (c : List Nat)
    (h : Reachable s c) : (schedTaskIds s).Perm c := by
  induction h with
  | init => exact List.Perm.refl _
  | add s c t hr ih =>
    have he : schedTaskIds (s.add_task t) = schedTaskIds s ++ [t.id] := by
      obtain ⟨q, cur⟩ := s
      cases cur <;> simp [Scheduler.add_task, schedTaskIds]
    rw [he]
    exact ih.append_right [t.id]
  | tick s c ctx cr3 hr ih =>
    obtain ⟨q, cur⟩ := s
    cases cur with
    | some t =>
      rw [scheduleNext_ids_some]
      rw [show (if (Scheduler.mk q (some t)).current_task.isNone
          then [0] else ([] : List Nat)) = [] from rfl]
      rw [List.append_nil]
      exact (List.rotate_perm _ 1).trans ih
    | none =>
      rw [schedule_next_none_eq, scheduleNext_ids_some]
      rw [show (if (Scheduler.mk q none).current_task.isNone
          then [0] else ([] : List Nat)) = [0] from rfl]
      have h0 : schedTaskIds ⟨q, some ⟨0, ctx, cr3, VMA_Manager.new, []⟩⟩
          = 0 :: q.map Task.id := rfl
      have h1 : schedTaskIds ⟨q, none⟩ = q.map Task.id := rfl
      rw [h0]
      refine (List.rotate_perm _ 1).trans ?_
      refine List.Perm.trans ?_ (List.perm_append_singleton 0 c).symm
      rw [h1] at ih
      exact ih.cons 0

/-- C8 witness: the invariant applied to the state reached by spawning task
5 and taking one tick (which also creates kernel task 0). -/
theorem reachable_exactlyOnePlace_witness :
    (schedTaskIds ((Scheduler.add_task Scheduler.new
        ⟨5, TaskContext.zero, 0, VMA_Manager.new, []⟩).schedule_next
      TaskContext.zero 0).sched).Perm [5, 0] :=
  reachable_exactlyOnePlace _ _
    (Reachable.tick _ _ TaskContext.zero 0
      (Reachable.add _ _ ⟨5, TaskContext.zero, 0, VMA_Manager.new, []⟩
        Reachable.init))

/-- C9.  Whenever allocate_frame returns (with a frame or with none), the
declared region table — and hence the region count — is unchanged, and the
cursor never decreases. -/
theorem allocateFrame_preservesRegionsMonotoneCursor (s : PmmState)
    (res : Option Nat) (s2 : PmmState)
    (h : allocate_frame s = some (res, s2)) :
    s2.available_regions = s.available_regions ∧
    s.next_free_frame ≤ s2.next_free_frame := by
  unfold allocate_frame at h
  by_cases hany : s.available_regions.any (regionAdmits (alignDown4K s.next_free_frame)) = true
  · rw [if_pos hany] at h
    cases hnew : physAddrNew (alignDown4K s.next_free_frame + frameSize) with
    | none => rw [hnew] at h; exact absurd h (by simp)
    | some na =>
      rw [hnew] at h
      injection h with h
      injection h with h1 h2
      subst h2
      refine ⟨rfl, ?_⟩
      unfold physAddrNew at hnew
      by_cases hlt : alignDown4K s.next_free_frame + frameSize < physMax
      · rw [if_pos hlt] at hnew
        injection hnew with hnew
        subst hnew
        show s.next_free_frame ≤ alignDown4K s.next_free_frame + frameSize
        have h1 := Nat.mod_le s.next_free_frame frameSize
        have h2 : s.next_free_frame % frameSize < frameSize :=
          Nat.mod_lt _ (by decide)
        unfold alignDown4K
        omega
      · rw [if_neg hlt] at hnew; exact absurd hnew (by simp)
  · rw [if_neg hany] at h
    injection h with h
    injection h with h1 h2
    subst h2
    exact ⟨rfl, Nat.le_refl _⟩

/-- C9 witness: applied to the concrete state with one region (0, 8192) and
cursor 100, where allocation returns frame 0 and the cursor advances to
4096. -/
theorem allocateFrame_preservesRegionsMonotoneCursor_witness :
    (⟨[(0, 8192)], 4096⟩ : PmmState).available_regions
        = (⟨[(0, 8192)], 100⟩ : PmmState).available_regions ∧
    (⟨[(0, 8192)], 100⟩ : PmmState).next_free_frame
        ≤ (⟨[(0, 8192)], 4096⟩ : PmmState).next_free_frame :=
  allocateFrame_preservesRegionsMonotoneCursor ⟨[(0, 8192)], 100⟩ (some 0)
    ⟨[(0, 8192)], 4096⟩ (by decide)

end LightOS
